import Mathlib

/-!
# Verification of the `threadpool` pool core

A shallow embedding of `src/pool_core.hpp` (class `threadpool::pool_core`)
and the thin facade `src/pool.hpp`.  The pool state is a record holding the
task priority queue, the worker-thread vector, the atomic counters and the
flags; each public operation and each step of a worker's fetch/execute loop
(`run_task`) becomes a transition of an executable step function.

`task.hpp` and `worker_thread.hpp` are not part of the sources at hand; the
pieces that live there (the priority comparator `task_comparator`, the
promise resolution inside `task::operator()`, and the worker incrementing
`m_threads_created` on start) are modelled from the specification and are
marked as such in their doc comments.
-/

namespace Threadpool

/-- Decidable equality for modelled callable outcomes. -/
instance exceptDecEq : DecidableEq (Except Nat Nat) := fun a b =>
  match a, b with
  | .ok v, .ok w => decidable_of_iff (v = w) (by constructor <;> (intro h; cases h; rfl))
  | .error v, .error w => decidable_of_iff (v = w) (by constructor <;> (intro h; cases h; rfl))
  | .ok _, .error _ => .isFalse (by intro h; cases h)
  | .error _, .ok _ => .isFalse (by intro h; cases h)

/-- A queued unit of work, as stored in `pool_core::m_tasks`.
`id` identifies the task's result channel (the `std::promise` created in
`add_task`), `priority` is the submission priority, `seq` the submission
sequence number, and `result` the outcome the zero-argument callable will
produce when it is eventually run (a value or a raised failure). -/
structure Task where
  id : Nat
  priority : Nat
  seq : Nat
  result : Except Nat Nat
deriving DecidableEq, Repr

/-- The status of one entry of `pool_core::m_threads`: the worker thread is
idle in its fetch loop, currently executing a task, or its `run_task` loop
has returned (the thread object stays in the vector after exit). -/
inductive WStatus
  | idle
  | executing (t : Task)
  | exited
deriving DecidableEq, Repr

/-- The state of one task's result channel (the `std::promise`/`std::future`
pair created in `add_task`): unresolved, resolved with a value, or resolved
with a captured failure. -/
inductive ChanState
  | pending
  | value (v : Nat)
  | failure (e : Nat)
deriving DecidableEq, Repr

/-- Modelled from the spec: `task::operator()` (in the absent `task.hpp`)
runs the callable and resolves the task's promise with the returned value,
or with the captured failure if the callable raised one. -/
def resolve : Except Nat Nat → ChanState
  | .ok v => .value v
  | .error e => .failure e

/-- The logical state of a `pool_core` object.  `tasks` is the content of
the priority queue `m_tasks`, `workers` the vector `m_threads` (one entry
per spawned worker thread), `chans` maps each task id to the state of its
result channel, and `next_seq`/`next_id` generate fresh sequence numbers
and channel ids at submission. -/
structure PoolState where
  tasks : List Task
  workers : List WStatus
  threads_created : Nat
  threads_running : Nat
  max_threads : Nat
  despawn_time_ms : Nat
  join_requested : Bool
  paused : Bool
  chans : Nat → ChanState
  next_seq : Nat
  next_id : Nat

/-- The `pool_core` constructor: all counters zero, empty queue and thread
vector, `m_join_requested` false; `pause()` is called when `start_paused`. -/
def init (max_threads : Nat) (start_paused : Bool) (despawn_time_ms : Nat) : PoolState :=
  { tasks := []
    workers := []
    threads_created := 0
    threads_running := 0
    max_threads := max_threads
    despawn_time_ms := despawn_time_ms
    join_requested := false
    paused := start_paused
    chans := fun _ => ChanState.pending
    next_seq := 0
    next_id := 0 }

/-- The spawn test of `pool_core::add_task`:
`m_threads_created == m_threads_running && m_threads_created != m_max_threads`. -/
def spawnCond (s : PoolState) : Bool :=
  s.threads_created == s.threads_running && s.threads_created != s.max_threads

/-- `pool_core::add_task`: when `spawnCond` holds a new `worker_thread` is
constructed (the worker increments `m_threads_created` on start — modelled
from the spec, `worker_thread.hpp` being absent) and then the task is pushed
onto `m_tasks` with a fresh promise (channel id) and sequence number. -/
def addTaskF (s : PoolState) (pr : Nat) (res : Except Nat Nat) : PoolState :=
  let s1 :=
    if spawnCond s then
      { s with workers := s.workers ++ [WStatus.idle]
               threads_created := s.threads_created + 1 }
    else s
  { s1 with tasks := s1.tasks ++ [⟨s1.next_id, pr, s1.next_seq, res⟩]
            next_seq := s1.next_seq + 1
            next_id := s1.next_id + 1 }

/-- Modelled from the spec: the strict order used by `task_comparator`
(in the absent `task.hpp`): `a` is below `b` when `b` has higher priority,
or equal priority and the smaller (earlier) sequence number. -/
def taskLt (a b : Task) : Bool :=
  a.priority < b.priority || (a.priority == b.priority && b.seq < a.seq)

/-- `m_tasks.top()` followed by `m_tasks.pop()`: the maximum element of the
queue under `taskLt` together with the remaining queue. -/
def popMax : List Task → Option (Task × List Task)
  | [] => none
  | t :: ts =>
    match popMax ts with
    | none => some (t, [])
    | some (m, rest) => if taskLt t m then some (m, t :: rest) else some (t, ts)

/-- `pool_core::clear`: pop every task off the queue. -/
def clearF (s : PoolState) : PoolState :=
  { s with tasks := [] }

/-- `pool_core::empty` (a const observer): returns whether `m_tasks` is
empty, paired with the state it leaves behind. -/
def emptyF (s : PoolState) : Bool × PoolState :=
  (s.tasks.isEmpty, s)

/-- `pool_core::get_threads_running` (a const observer). -/
def get_threads_running (s : PoolState) : Nat × PoolState :=
  (s.threads_running, s)

/-- `pool_core::get_threads_created` (a const observer). -/
def get_threads_created (s : PoolState) : Nat × PoolState :=
  (s.threads_created, s)

/-- `pool_core::get_max_threads` (a const observer). -/
def get_max_threads (s : PoolState) : Nat × PoolState :=
  (s.max_threads, s)

/-- `pool_core::set_max_threads`: plain assignment to `m_max_threads`. -/
def setMaxF (s : PoolState) (n : Nat) : PoolState :=
  { s with max_threads := n }

/-- Does this worker-vector entry hold the task with channel id `i`? -/
def wHolds (i : Nat) : WStatus → Bool
  | .executing t => t.id == i
  | _ => false

/-- One observable transition of the pool: a public operation, or one step
of a worker thread's `run_task` loop. -/
inductive Op
  /-- a call to `add_task(func, priority)`; `res` is what the callable will
  produce when run. -/
  | addTask (pr : Nat) (res : Except Nat Nat)
  /-- worker `i` passes the pause gate and `pop_task` returns a task:
  `++m_threads_running` and the task starts executing. -/
  | fetch (i : Nat)
  /-- worker `i` finishes its task: the promise is resolved and
  `--m_threads_running`. -/
  | finish (i : Nat)
  /-- worker `i`'s `pop_task` returned null and `m_join_requested` is false:
  the loop just re-enters (no state change). -/
  | idleLoop (i : Nat)
  /-- worker `i` exits because the loop condition
  `m_threads_created <= m_max_threads` fails. -/
  | exitCond (i : Nat)
  /-- worker `i` exits: `pop_task` returned null (empty queue) and
  `m_join_requested` is true. -/
  | exitJoin (i : Nat)
  /-- a call to `pause()`. -/
  | pauseOp
  /-- a call to `unpause()`. -/
  | unpauseOp
  /-- a call to `clear()`. -/
  | clearOp
  /-- entry of `join(clear_tasks)`: optional `clear()`, then
  `m_join_requested = true`. -/
  | joinBegin (clear_tasks : Bool)
  /-- exit of `join`: every worker thread has been joined, then
  `m_join_requested = false`. -/
  | joinEnd
  /-- a call to `set_max_threads(n)`. -/
  | setMax (n : Nat)
deriving DecidableEq, Repr

/-- The step function: `step op s` is the state after performing `op` in
state `s`, or `none` when `op` is not enabled there (its guard fails). -/
def step (op : Op) (s : PoolState) : Option PoolState :=
  match op with
  | .addTask pr res => some (addTaskF s pr res)
  | .fetch i =>
    if s.paused then none
    else
      match s.workers.get? i with
      | some WStatus.idle =>
        match popMax s.tasks with
        | some (t, rest) =>
          some { s with tasks := rest
                        workers := s.workers.set i (WStatus.executing t)
                        threads_running := s.threads_running + 1 }
        | none => none
      | _ => none
  | .finish i =>
    match s.workers.get? i with
    | some (WStatus.executing t) =>
      some { s with workers := s.workers.set i WStatus.idle
                    threads_running := s.threads_running - 1
                    chans := Function.update s.chans t.id (resolve t.result) }
    | _ => none
  | .idleLoop i =>
    if s.tasks.isEmpty && !s.join_requested then
      match s.workers.get? i with
      | some WStatus.idle => some s
      | _ => none
    else none
  | .exitCond i =>
    if s.max_threads < s.threads_created then
      match s.workers.get? i with
      | some WStatus.idle => some { s with workers := s.workers.set i WStatus.exited }
      | _ => none
    else none
  | .exitJoin i =>
    if s.tasks.isEmpty && s.join_requested then
      match s.workers.get? i with
      | some WStatus.idle => some { s with workers := s.workers.set i WStatus.exited }
      | _ => none
    else none
  | .pauseOp => some { s with paused := true }
  | .unpauseOp => some { s with paused := false }
  | .clearOp => some (clearF s)
  | .joinBegin clear_tasks =>
    some { s with tasks := if clear_tasks then [] else s.tasks
                  join_requested := true }
  | .joinEnd =>
    if s.workers.all (fun w => decide (w = WStatus.exited)) then
      some { s with join_requested := false }
    else none
  | .setMax n => some (setMaxF s n)

/-- Run a sequence of operations from a state; fails when a step's guard
fails. -/
def run : List Op → PoolState → Option PoolState
  | [], s => some s
  | op :: ops, s =>
    match step op s with
    | some s1 => run ops s1
    | none => none

/-- One bounded round of `pool_core::pop_task(max_wait)`.  The two booleans
are the observations that settle the round: `jr` is `m_join_requested` at the
check inside the wait loop, `to` tells whether `m_task_ready.wait_for`
timed out without a task arriving.  The result is `none` when the round ends
with the worker still waiting (empty queue, no shutdown, no timeout yet),
and `some (r, q')` when `pop_task` returns `r` leaving queue `q'`. -/
def popTaskRound (q : List Task) (jr tmo : Bool) : Option (Option Task × List Task) :=
  if q.isEmpty then
    if jr || tmo then some (none, q) else none
  else
    match popMax q with
    | some (m, rest) => some (some m, rest)
    | none => none

/-- Is this worker-vector entry currently executing a task? -/
def isExec : WStatus → Bool
  | .executing _ => true
  | _ => false

/-- The number of workers currently executing a task. -/
def execCount (ws : List WStatus) : Nat :=
  ws.countP isExec

/-- The inductive counter invariant: `m_threads_running` counts the workers
in the executing state, and `m_threads_created` counts the spawned worker
threads (the length of `m_threads`). -/
def CInv (s : PoolState) : Prop :=
  s.threads_running = execCount s.workers ∧ s.threads_created = s.workers.length

/-- Channel id `i` is dead in state `s`: its id was already allocated, no
queued task and no executing worker carries it, and its channel is still
unresolved. -/
def DeadId (i : Nat) (s : PoolState) : Prop :=
  i < s.next_id ∧
  (∀ t ∈ s.tasks, t.id ≠ i) ∧
  (∀ w ∈ s.workers, wHolds i w = false) ∧
  s.chans i = ChanState.pending

/-- Pop tasks off a queue repeatedly (with fuel), in the order `pop_task`
would deliver them to workers when no submission interleaves. -/
def drainFuel : Nat → List Task → List Task
  | 0, _ => []
  | n + 1, q =>
    match popMax q with
    | none => []
    | some (m, rest) => m :: drainFuel n rest

theorem taskLt_irrefl (a : Task) : taskLt a a = false := by
  simp [taskLt]

theorem taskLt_asymm {a b : Task} (h : taskLt a b = true) : taskLt b a = false := by
  simp only [taskLt, Bool.or_eq_true, Bool.and_eq_true, decide_eq_true_eq, beq_iff_eq] at h
  simp only [taskLt, Bool.or_eq_false_iff, Bool.and_eq_false_iff]
  constructor
  · simp only [decide_eq_false_iff_not]
    omega
  · rcases h with h | ⟨h1, h2⟩
    · left; simp only [beq_eq_false_iff_ne, ne_eq]; omega
    · right; simp only [decide_eq_false_iff_not]; omega

theorem taskLt_neg_trans {a b c : Task} (h1 : taskLt a b = false) (h2 : taskLt b c = false) :
    taskLt a c = false := by
  simp only [taskLt, Bool.or_eq_false_iff, Bool.and_eq_false_iff, decide_eq_false_iff_not,
    beq_eq_false_iff_ne, ne_eq] at h1 h2 ⊢
  omega

theorem popMax_eq_none {q : List Task} : popMax q = none ↔ q = [] := by
  cases q with
  | nil => simp [popMax]
  | cons t ts =>
    simp only [popMax]
    rcases hts : popMax ts with _ | ⟨m1, rest1⟩
    · simp
    · by_cases hlt : taskLt t m1 = true <;> simp [hlt]

/-- `popMax` of a non-empty queue returns an element of the queue, removes
exactly it (the remainder is a permutation witness), and that element is
maximal under `taskLt`. -/
theorem popMax_spec : ∀ (q : List Task) (m : Task) (rest : List Task),
    popMax q = some (m, rest) →
    m ∈ q ∧ q.Perm (m :: rest) ∧ ∀ u ∈ q, taskLt m u = false := by
  intro q
  induction q with
  | nil => intro m rest h; simp [popMax] at h
  | cons t ts ih =>
    intro m rest h
    simp only [popMax] at h
    rcases hts : popMax ts with _ | ⟨m1, rest1⟩ <;> simp only [hts] at h
    · simp only [Option.some.injEq, Prod.mk.injEq] at h
      obtain ⟨h1, h2⟩ := h
      subst h1
      subst h2
      rw [popMax_eq_none] at hts
      subst hts
      refine ⟨List.mem_cons_self _ _, List.Perm.refl _, ?_⟩
      intro u hu
      rw [List.mem_singleton] at hu
      subst hu
      exact taskLt_irrefl _
    · obtain ⟨hm, hp, hmax⟩ := ih m1 rest1 hts
      by_cases hlt : taskLt t m1 = true
      · rw [if_pos hlt] at h
        simp only [Option.some.injEq, Prod.mk.injEq] at h
        obtain ⟨h1, h2⟩ := h
        subst h1
        subst h2
        refine ⟨List.mem_cons_of_mem t hm, ?_, ?_⟩
        · exact (List.Perm.cons t hp).trans (List.Perm.swap _ _ _)
        · intro u hu
          rcases List.mem_cons.1 hu with rfl | hu
          · exact taskLt_asymm hlt
          · exact hmax u hu
      · replace hlt : taskLt t m1 = false := by simpa using hlt
        rw [if_neg (by simp [hlt])] at h
        simp only [Option.some.injEq, Prod.mk.injEq] at h
        obtain ⟨h1, h2⟩ := h
        subst h1
        subst h2
        refine ⟨List.mem_cons_self _ _, List.Perm.refl _, ?_⟩
        intro u hu
        rcases List.mem_cons.1 hu with rfl | hu
        · exact taskLt_irrefl _
        · exact taskLt_neg_trans hlt (hmax u hu)

theorem execCount_append_idle (ws : List WStatus) :
    execCount (ws ++ [WStatus.idle]) = execCount ws := by
  simp [execCount, List.countP_append, List.countP_cons, isExec]

theorem execCount_set (ws : List WStatus) (i : Nat) (w w' : WStatus)
    (h : ws.get? i = some w) :
    execCount (ws.set i w') + (if isExec w then 1 else 0)
      = execCount ws + (if isExec w' then 1 else 0) := by
  induction ws generalizing i with
  | nil => simp at h
  | cons a l ih =>
    cases i with
    | zero =>
      simp only [List.get?] at h
      injection h with h
      subst h
      simp only [List.set]
      simp only [execCount, List.countP_cons]
      omega
    | succ n =>
      simp only [List.get?] at h
      have := ih n h
      simp only [List.set]
      simp only [execCount, List.countP_cons] at this ⊢
      omega

theorem length_set_eq (ws : List WStatus) (i : Nat) (w : WStatus) :
    (ws.set i w).length = ws.length := by
  simp

/-- Every transition preserves the counter invariant: `m_threads_running`
counts the executing workers and `m_threads_created` the spawned workers. -/
theorem step_CInv {op : Op} {s s' : PoolState} (h : step op s = some s')
    (hinv : CInv s) : CInv s' := by
  obtain ⟨hrun, hcre⟩ := hinv
  cases op with
  | addTask pr res =>
    simp only [step, Option.some.injEq] at h
    subst h
    unfold addTaskF
    by_cases hc : spawnCond s = true <;> simp only [hc, if_true, if_false, CInv] <;>
      simp [execCount_append_idle, hrun, hcre]
  | fetch i =>
    simp only [step] at h
    by_cases hp : s.paused = true
    · simp [hp] at h
    · simp only [Bool.not_eq_true] at hp
      simp only [hp, Bool.false_eq_true, if_false] at h
      rcases hw : s.workers.get? i with _ | w <;> simp only [hw] at h
      · exact absurd h (by simp)
      · cases w with
        | idle =>
          rcases hpop : popMax s.tasks with _ | ⟨t, rest⟩ <;> simp only [hpop] at h
          · exact absurd h (by simp)
          · simp only [Option.some.injEq] at h
            subst h
            refine ⟨?_, by simpa using hcre⟩
            have := execCount_set s.workers i _ (WStatus.executing t) hw
            simp [isExec] at this
            simp only [hrun]
            omega
        | executing t => exact absurd h (by simp)
        | exited => exact absurd h (by simp)
  | finish i =>
    simp only [step] at h
    rcases hw : s.workers.get? i with _ | w <;> simp only [hw] at h
    · exact absurd h (by simp)
    · cases w with
      | idle => exact absurd h (by simp)
      | executing t =>
        simp only [Option.some.injEq] at h
        subst h
        refine ⟨?_, by simpa using hcre⟩
        have := execCount_set s.workers i _ WStatus.idle hw
        simp [isExec] at this
        simp only [hrun]
        omega
      | exited => exact absurd h (by simp)
  | idleLoop i =>
    simp only [step] at h
    by_cases hc : (s.tasks.isEmpty && !s.join_requested) = true
    · simp only [hc, if_true] at h
      rcases hw : s.workers.get? i with _ | w <;> simp only [hw] at h
      · exact absurd h (by simp)
      · cases w with
        | idle =>
          simp only [Option.some.injEq] at h
          subst h
          exact ⟨hrun, hcre⟩
        | executing t => exact absurd h (by simp)
        | exited => exact absurd h (by simp)
    · simp [hc] at h
  | exitCond i =>
    simp only [step] at h
    by_cases hc : s.max_threads < s.threads_created
    · simp only [if_pos hc] at h
      rcases hw : s.workers.get? i with _ | w <;> simp only [hw] at h
      · exact absurd h (by simp)
      · cases w with
        | idle =>
          simp only [Option.some.injEq] at h
          subst h
          refine ⟨?_, by simpa using hcre⟩
          have := execCount_set s.workers i _ WStatus.exited hw
          simp [isExec] at this
          simp only [hrun]
          omega
        | executing t => exact absurd h (by simp)
        | exited => exact absurd h (by simp)
    · simp [if_neg hc] at h
  | exitJoin i =>
    simp only [step] at h
    by_cases hc : (s.tasks.isEmpty && s.join_requested) = true
    · simp only [hc, if_true] at h
      rcases hw : s.workers.get? i with _ | w <;> simp only [hw] at h
      · exact absurd h (by simp)
      · cases w with
        | idle =>
          simp only [Option.some.injEq] at h
          subst h
          refine ⟨?_, by simpa using hcre⟩
          have := execCount_set s.workers i _ WStatus.exited hw
          simp [isExec] at this
          simp only [hrun]
          omega
        | executing t => exact absurd h (by simp)
        | exited => exact absurd h (by simp)
    · simp [hc] at h
  | pauseOp =>
    simp only [step, Option.some.injEq] at h
    subst h
    exact ⟨hrun, hcre⟩
  | unpauseOp =>
    simp only [step, Option.some.injEq] at h
    subst h
    exact ⟨hrun, hcre⟩
  | clearOp =>
    simp only [step, Option.some.injEq] at h
    subst h
    exact ⟨hrun, hcre⟩
  | joinBegin c =>
    simp only [step, Option.some.injEq] at h
    subst h
    exact ⟨hrun, hcre⟩
  | joinEnd =>
    simp only [step] at h
    split at h
    · simp only [Option.some.injEq] at h
      subst h
      exact ⟨hrun, hcre⟩
    · exact absurd h (by simp)
  | setMax n =>
    simp only [step, Option.some.injEq] at h
    subst h
    exact ⟨hrun, hcre⟩

/-- Running any sequence of operations preserves the counter invariant. -/
theorem run_CInv : ∀ (ops : List Op) (s s' : PoolState),
    run ops s = some s' → CInv s → CInv s' := by
  intro ops
  induction ops with
  | nil =>
    intro s s' h hinv
    simp only [run, Option.some.injEq] at h
    subst h
    exact hinv
  | cons op ops ih =>
    intro s s' h hinv
    simp only [run] at h
    split at h
    · rename_i s1 hs1
      exact ih s1 s' h (step_CInv hs1 hinv)
    · exact absurd h (by simp)

/-- `add_task` leaves all components except the queue, the worker vector,
the created counter and the fresh-id counters alone, and spawns exactly when
`spawnCond` holds. -/
theorem addTaskF_threads_created (s : PoolState) (pr : Nat) (res : Except Nat Nat) :
    (addTaskF s pr res).threads_created
      = (if spawnCond s then s.threads_created + 1 else s.threads_created)
    ∧ (addTaskF s pr res).max_threads = s.max_threads := by
  unfold addTaskF
  by_cases hc : spawnCond s = true <;> simp [hc]

/-- Every transition except `set_max_threads` preserves
`m_threads_created ≤ m_max_threads`. -/
theorem step_created_le_max {op : Op} {s s' : PoolState} (h : step op s = some s')
    (hop : ∀ n, op ≠ Op.setMax n) (hle : s.threads_created ≤ s.max_threads) :
    s'.threads_created ≤ s'.max_threads := by
  cases op with
  | addTask pr res =>
    simp only [step, Option.some.injEq] at h
    subst h
    obtain ⟨h1, h2⟩ := addTaskF_threads_created s pr res
    rw [h1, h2]
    by_cases hc : spawnCond s = true
    · have hne : s.threads_created ≠ s.max_threads := by
        have hc' := hc
        rw [spawnCond, Bool.and_eq_true] at hc'
        simpa using hc'.2
      simp only [hc, if_true]
      omega
    · simp [hc, hle]
  | fetch i =>
    simp only [step] at h
    by_cases hp : s.paused = true
    · simp [hp] at h
    · simp only [Bool.not_eq_true] at hp
      simp only [hp, Bool.false_eq_true, if_false] at h
      rcases hw : s.workers.get? i with _ | w <;> simp only [hw] at h
      · exact absurd h (by simp)
      · cases w with
        | idle =>
          rcases hpop : popMax s.tasks with _ | ⟨t, rest⟩ <;> simp only [hpop] at h
          · exact absurd h (by simp)
          · simp only [Option.some.injEq] at h
            subst h
            exact hle
        | executing t => exact absurd h (by simp)
        | exited => exact absurd h (by simp)
  | finish i =>
    simp only [step] at h
    rcases hw : s.workers.get? i with _ | w <;> simp only [hw] at h
    · exact absurd h (by simp)
    · cases w with
      | idle => exact absurd h (by simp)
      | executing t =>
        simp only [Option.some.injEq] at h
        subst h
        exact hle
      | exited => exact absurd h (by simp)
  | idleLoop i =>
    simp only [step] at h
    by_cases hc : (s.tasks.isEmpty && !s.join_requested) = true
    · simp only [hc, if_true] at h
      rcases hw : s.workers.get? i with _ | w <;> simp only [hw] at h
      · exact absurd h (by simp)
      · cases w with
        | idle =>
          simp only [Option.some.injEq] at h
          subst h
          exact hle
        | executing t => exact absurd h (by simp)
        | exited => exact absurd h (by simp)
    · simp [hc] at h
  | exitCond i =>
    simp only [step] at h
    by_cases hc : s.max_threads < s.threads_created
    · simp only [if_pos hc] at h
      rcases hw : s.workers.get? i with _ | w <;> simp only [hw] at h
      · exact absurd h (by simp)
      · cases w with
        | idle =>
          simp only [Option.some.injEq] at h
          subst h
          exact hle
        | executing t => exact absurd h (by simp)
        | exited => exact absurd h (by simp)
    · simp [if_neg hc] at h
  | exitJoin i =>
    simp only [step] at h
    by_cases hc : (s.tasks.isEmpty && s.join_requested) = true
    · simp only [hc, if_true] at h
      rcases hw : s.workers.get? i with _ | w <;> simp only [hw] at h
      · exact absurd h (by simp)
      · cases w with
        | idle =>
          simp only [Option.some.injEq] at h
          subst h
          exact hle
        | executing t => exact absurd h (by simp)
        | exited => exact absurd h (by simp)
    · simp [hc] at h
  | pauseOp =>
    simp only [step, Option.some.injEq] at h
    subst h
    exact hle
  | unpauseOp =>
    simp only [step, Option.some.injEq] at h
    subst h
    exact hle
  | clearOp =>
    simp only [step, Option.some.injEq] at h
    subst h
    exact hle
  | joinBegin c =>
    simp only [step, Option.some.injEq] at h
    subst h
    exact hle
  | joinEnd =>
    simp only [step] at h
    split at h
    · simp only [Option.some.injEq] at h
      subst h
      exact hle
    · exact absurd h (by simp)
  | setMax n => exact absurd rfl (hop n)

/-- Running a sequence of operations with no `set_max_threads` among them
preserves `m_threads_created ≤ m_max_threads`. -/
theorem run_created_le_max : ∀ (ops : List Op) (s s' : PoolState),
    run ops s = some s' → (∀ n, Op.setMax n ∉ ops) →
    s.threads_created ≤ s.max_threads → s'.threads_created ≤ s'.max_threads := by
  intro ops
  induction ops with
  | nil =>
    intro s s' h _ hle
    simp only [run, Option.some.injEq] at h
    subst h
    exact hle
  | cons op ops ih =>
    intro s s' h hns hle
    simp only [run] at h
    split at h
    · rename_i s1 hs1
      refine ih s1 s' h (fun n hn => hns n (List.mem_cons_of_mem _ hn)) ?_
      exact step_created_le_max hs1 (fun n hn => hns n (hn ▸ List.mem_cons_self _ _)) hle
    · exact absurd h (by simp)

theorem spawnCond_iff {s : PoolState} :
    spawnCond s = true ↔
      s.threads_created = s.threads_running ∧ s.threads_created ≠ s.max_threads := by
  simp [spawnCond]

/-- C1 (corrected): in every state reachable by pool operations,
`threads_running ≤ threads_created`; and `threads_created ≤ max_threads`
additionally holds provided the sequence contains no `set_max_threads` call.
(The unrestricted claim is false: `set_max_threads` can lower the ceiling
below `threads_created`, see the counterexample.) -/
theorem c1_counter_relation (m : Nat) (p : Bool) (d : Nat) (ops : List Op) (s : PoolState)
    (h : run ops (init m p d) = some s) :
    s.threads_running ≤ s.threads_created ∧
      ((∀ n, Op.setMax n ∉ ops) → s.threads_created ≤ s.max_threads) := by
  have hinv : CInv s := run_CInv ops _ s h ⟨rfl, rfl⟩
  constructor
  · rw [hinv.1, hinv.2]
    exact List.countP_le_length _
  · intro hns
    exact run_created_le_max ops _ s h hns (Nat.zero_le m)

/-- C1 counterexample: constructing a pool with `max_threads = 1`, submitting
one task (which spawns a worker, so `threads_created = 1`), then calling
`set_max_threads(0)` reaches a state with `threads_created = 1 > 0 =
max_threads`, so the claimed invariant
`threads_running ≤ threads_created ≤ max_threads` fails on this
reachable state. -/
theorem c1_counterexample :
    ((run [Op.addTask 0 (Except.ok 0), Op.setMax 0] (init 1 false 1000)).map
      fun s => (s.threads_created, s.max_threads)) = some (1, 0) ∧ ¬ ((1 : Nat) ≤ 0) :=
  ⟨by decide, by decide⟩

/-- Operation sequence for the C1 witness: one submission (spawning a
worker) followed by that worker fetching the task. -/
def c1_ops : List Op := [Op.addTask 0 (Except.ok 0), Op.fetch 0]

/-- The concrete state reached by `c1_ops` from `init 2 false 1000`. -/
def c1_state : PoolState := (run c1_ops (init 2 false 1000)).get (by rfl)

/-- Witness for C1: the amended invariant evaluated on a concrete reachable
state. -/
theorem c1_witness :
    c1_state.threads_running ≤ c1_state.threads_created ∧
      c1_state.threads_created ≤ c1_state.max_threads := by
  have hrun : run c1_ops (init 2 false 1000) = some c1_state := (Option.some_get _).symm
  have h := c1_counter_relation 2 false 1000 c1_ops c1_state hrun
  refine ⟨h.1, h.2 ?_⟩
  intro n hn
  simp [c1_ops] at hn

/-- C2 (corrected): `add_task` spawns a new worker (the worker vector and
`threads_created` both grow by exactly one) if and only if
`threads_created == threads_running` and `threads_created != max_threads` —
the code compares with `!=`, not `<` as the claim states; the task is
enqueued in every case.  (The `<` version is refuted by the counterexample,
where a spawn happens with `threads_created > max_threads`.) -/
theorem c2_spawn_condition (s : PoolState) (pr : Nat) (res : Except Nat Nat) :
    (((addTaskF s pr res).threads_created = s.threads_created + 1 ∧
        (addTaskF s pr res).workers.length = s.workers.length + 1) ↔
      (s.threads_created = s.threads_running ∧ s.threads_created ≠ s.max_threads)) ∧
    (addTaskF s pr res).tasks.length = s.tasks.length + 1 := by
  constructor
  · constructor
    · rintro ⟨h1, _⟩
      by_cases hc : spawnCond s = true
      · exact spawnCond_iff.1 hc
      · exfalso
        revert h1
        simp [addTaskF, hc]
    · intro hrs
      have hc : spawnCond s = true := spawnCond_iff.2 hrs
      simp [addTaskF, hc]
  · by_cases hc : spawnCond s = true <;> simp [addTaskF, hc]

/-- C2 counterexample: reach `threads_created = 1`, `threads_running = 1`,
then `set_max_threads(0)`.  The next `add_task` spawns (two workers,
`threads_created = 2`) even though `threads_created < max_threads` is false
(`¬ (1 < 0)`), refuting the claim's `<` spawn condition. -/
theorem c2_counterexample :
    ((run [Op.addTask 0 (Except.ok 0), Op.fetch 0, Op.setMax 0, Op.addTask 0 (Except.ok 0)]
        (init 1 false 1000)).map
      fun s => (s.threads_created, s.max_threads, s.workers.length)) = some (2, 0, 2) ∧
    ¬ ((1 : Nat) < 0) :=
  ⟨by decide, by decide⟩

/-- Witness for C2: on a fresh pool with `max_threads = 1`, submitting one
task spawns exactly one worker. -/
theorem c2_witness :
    (addTaskF (init 1 false 1000) 0 (Except.ok 0)).threads_created
        = (init 1 false 1000).threads_created + 1 ∧
      (addTaskF (init 1 false 1000) 0 (Except.ok 0)).workers.length
        = (init 1 false 1000).workers.length + 1 :=
  (c2_spawn_condition (init 1 false 1000) 0 (Except.ok 0)).1.mpr (by decide)

/-- C3 (confirmed; the comparator is modelled from the spec, `task.hpp`
being absent): `pop_task` removes and returns a maximum of the queue under
the order `taskLt` (priority descending, sequence ascending): the returned
task belongs to the queue, the queue afterwards is the queue minus exactly
that task, and no queued task is above it.  Moreover for the concrete
scenario of three submissions with priorities `[1, 5, 3]` (and no concurrent
pops), draining the queue yields priorities `[5, 3, 1]`. -/
theorem c3_pop_priority_order :
    (∀ (q : List Task) (m : Task) (rest : List Task), popMax q = some (m, rest) →
      m ∈ q ∧ q.Perm (m :: rest) ∧ q.all (fun u => ! taskLt m u) = true) ∧
    (drainFuel 3 ((addTaskF (addTaskF (addTaskF (init 3 false 0) 1 (Except.ok 0)) 5
        (Except.ok 0)) 3 (Except.ok 0)).tasks)).map Task.priority = [5, 3, 1] := by
  constructor
  · intro q m rest h
    obtain ⟨h1, h2, h3⟩ := popMax_spec q m rest h
    refine ⟨h1, h2, ?_⟩
    rw [List.all_eq_true]
    intro u hu
    simp [h3 u hu]
  · decide

/-- Witness for C3: in the queue holding tasks of priorities 1, 5, 3
(sequence numbers 0, 1, 2), `popMax` returns the priority-5 task and leaves
the other two. -/
theorem c3_witness :
    (⟨1, 5, 1, Except.ok 0⟩ : Task) ∈
        [(⟨0, 1, 0, Except.ok 0⟩ : Task), ⟨1, 5, 1, Except.ok 0⟩, ⟨2, 3, 2, Except.ok 0⟩] ∧
      List.Perm
        [(⟨0, 1, 0, Except.ok 0⟩ : Task), ⟨1, 5, 1, Except.ok 0⟩, ⟨2, 3, 2, Except.ok 0⟩]
        ((⟨1, 5, 1, Except.ok 0⟩ : Task) ::
          [(⟨0, 1, 0, Except.ok 0⟩ : Task), ⟨2, 3, 2, Except.ok 0⟩]) ∧
      List.all
        [(⟨0, 1, 0, Except.ok 0⟩ : Task), ⟨1, 5, 1, Except.ok 0⟩, ⟨2, 3, 2, Except.ok 0⟩]
        (fun u => ! taskLt ⟨1, 5, 1, Except.ok 0⟩ u) = true :=
  c3_pop_priority_order.1
    [⟨0, 1, 0, Except.ok 0⟩, ⟨1, 5, 1, Except.ok 0⟩, ⟨2, 3, 2, Except.ok 0⟩]
    ⟨1, 5, 1, Except.ok 0⟩
    [⟨0, 1, 0, Except.ok 0⟩, ⟨2, 3, 2, Except.ok 0⟩] (by decide)

/-- C6 (confirmed): `clear()` always succeeds and leaves the queue empty —
`empty()` run immediately afterwards returns true — while the worker vector,
both counters and every result channel (in particular those of tasks already
popped and executing) are untouched. -/
theorem c6_clear_empties (s : PoolState) :
    step Op.clearOp s = some (clearF s) ∧
    (emptyF (clearF s)).1 = true ∧
    (clearF s).workers = s.workers ∧
    (clearF s).threads_running = s.threads_running ∧
    (clearF s).threads_created = s.threads_created ∧
    (clearF s).chans = s.chans :=
  ⟨rfl, rfl, rfl, rfl, rfl, rfl⟩

/-- C8 (confirmed): one settled round of `pop_task` returns no task exactly
when the queue is empty and shutdown was requested or the bounded wait timed
out; it keeps waiting (no return) exactly when the queue is empty with
neither of those; and on a non-empty queue it always returns the popped
maximum task, regardless of shutdown or timeout. -/
theorem c8_pop_task_outcomes (q : List Task) (jr tmo : Bool) :
    (popTaskRound q jr tmo = some (none, q) ↔ q = [] ∧ (jr = true ∨ tmo = true)) ∧
    (popTaskRound q jr tmo = none ↔ q = [] ∧ jr = false ∧ tmo = false) ∧
    (q ≠ [] → popTaskRound q jr tmo = (popMax q).map fun p => (some p.1, p.2)) := by
  cases q with
  | nil =>
    cases jr <;> cases tmo <;> simp [popTaskRound]
  | cons t ts =>
    rcases hp : popMax (t :: ts) with _ | ⟨m, r⟩
    · exact absurd (popMax_eq_none.1 hp) (by simp)
    · refine ⟨?_, ?_, ?_⟩
      · simp [popTaskRound, hp]
      · simp [popTaskRound, hp]
      · intro _
        simp [popTaskRound, hp]

/-- Witness for C8: on a one-task queue with no shutdown and no timeout,
`pop_task` returns the popped maximum. -/
theorem c8_witness :
    popTaskRound [(⟨0, 0, 0, Except.ok 0⟩ : Task)] false false
      = (popMax [(⟨0, 0, 0, Except.ok 0⟩ : Task)]).map fun p => (some p.1, p.2) :=
  (c8_pop_task_outcomes [⟨0, 0, 0, Except.ok 0⟩] false false).2.2 (by decide)

/-- C9 (confirmed; the promise resolution of `task::operator()` is modelled
from the spec, `task.hpp` being absent): submitting a task whose callable
returns `v`, then letting a worker fetch and execute it, resolves its result
channel with exactly `value v`; a callable raising failure `e` resolves it
with exactly `failure e`. -/
theorem c9_result_roundtrip (v e : Nat) :
    ((run [Op.addTask 0 (Except.ok v), Op.fetch 0, Op.finish 0] (init 1 false 1000)).map
      fun s => s.chans 0) = some (ChanState.value v) ∧
    ((run [Op.addTask 0 (Except.error e), Op.fetch 0, Op.finish 0] (init 1 false 1000)).map
      fun s => s.chans 0) = some (ChanState.failure e) := by
  constructor <;> rfl

/-- C10 (confirmed): the four const observers return the corresponding
component of the pool state and leave the entire state — queue, counters,
ceiling, shutdown flag, pause gate — unchanged. -/
theorem c10_observers_pure (s : PoolState) :
    (emptyF s).2 = s ∧ (get_threads_running s).2 = s ∧
    (get_threads_created s).2 = s ∧ (get_max_threads s).2 = s ∧
    (emptyF s).1 = s.tasks.isEmpty ∧ (get_threads_running s).1 = s.threads_running ∧
    (get_threads_created s).1 = s.threads_created ∧ (get_max_threads s).1 = s.max_threads :=
  ⟨rfl, rfl, rfl, rfl, rfl, rfl, rfl, rfl⟩

/-- C4 (corrected): a worker's fetch/execute loop terminates in exactly two
cases — the loop condition `m_threads_created <= m_max_threads` fails, or
`pop_task` returned nothing while `m_join_requested` is set.  When the pop
times out with no task and shutdown is not requested the worker re-loops
with the state unchanged.  Contrary to the claim, lowering `max_threads`
below `threads_created` via `set_max_threads` does make an already-running
worker exit at its next loop check (see the counterexample). -/
theorem c4_worker_exit (s s' : PoolState) (i : Nat) :
    (step (Op.exitCond i) s = some s' → s.max_threads < s.threads_created) ∧
    (step (Op.exitJoin i) s = some s' → s.join_requested = true ∧ s.tasks = []) ∧
    (step (Op.idleLoop i) s = some s' → s' = s ∧ s.join_requested = false) := by
  refine ⟨?_, ?_, ?_⟩ <;> intro h <;> simp only [step] at h
  · by_cases hc : s.max_threads < s.threads_created
    · exact hc
    · simp [if_neg hc] at h
  · by_cases hc : (s.tasks.isEmpty && s.join_requested) = true
    · rw [Bool.and_eq_true] at hc
      exact ⟨hc.2, by simpa using hc.1⟩
    · simp [hc] at h
  · by_cases hc : (s.tasks.isEmpty && !s.join_requested) = true
    · rw [Bool.and_eq_true] at hc
      refine ⟨?_, by simpa using hc.2⟩
      simp only [hc.1, hc.2, Bool.and_self, if_true] at h
      rcases hw : s.workers.get? i with _ | w <;> simp only [hw] at h
      · exact absurd h (by simp)
      · cases w with
        | idle =>
          simp only [Option.some.injEq] at h
          exact h.symm
        | executing t => exact absurd h (by simp)
        | exited => exact absurd h (by simp)
    · simp [hc] at h

/-- C4 counterexample: spawn one worker (`threads_created = 1`), then
`set_max_threads(0)`.  The worker's next loop check fails and it exits with
`m_join_requested` still false — a worker terminated although shutdown was
never requested, caused precisely by lowering `max_threads`. -/
theorem c4_counterexample :
    ((run [Op.addTask 0 (Except.ok 0), Op.setMax 0, Op.exitCond 0] (init 1 false 1000)).map
      fun s => (s.workers, s.join_requested)) = some ([WStatus.exited], false) := by
  decide

/-- State for the C4 witness, first part: one worker spawned, ceiling then
lowered to 0. -/
def c4_s1 : PoolState :=
  (run [Op.addTask 0 (Except.ok 0), Op.setMax 0] (init 1 false 1000)).get (by rfl)

/-- The state after the worker of `c4_s1` exits at the loop check. -/
def c4_s1' : PoolState := (step (Op.exitCond 0) c4_s1).get (by rfl)

/-- State for the C4 witness, second part: one worker spawned, then
`join(true)` entered (queue cleared, shutdown requested). -/
def c4_s2 : PoolState :=
  (run [Op.addTask 0 (Except.ok 0), Op.joinBegin true] (init 1 false 1000)).get (by rfl)

/-- The state after the worker of `c4_s2` exits on shutdown. -/
def c4_s2' : PoolState := (step (Op.exitJoin 0) c4_s2).get (by rfl)

/-- State for the C4 witness, third part: one worker spawned, queue then
cleared, shutdown not requested. -/
def c4_s3 : PoolState :=
  (run [Op.addTask 0 (Except.ok 0), Op.clearOp] (init 1 false 1000)).get (by rfl)

/-- The state after the worker of `c4_s3` re-loops on an empty pop. -/
def c4_s3' : PoolState := (step (Op.idleLoop 0) c4_s3).get (by rfl)

/-- Witness for C4: each of the three loop outcomes exercised on a concrete
state in which it is enabled. -/
theorem c4_witness :
    c4_s1.max_threads < c4_s1.threads_created ∧
      (c4_s2.join_requested = true ∧ c4_s2.tasks = []) ∧
      (c4_s3' = c4_s3 ∧ c4_s3.join_requested = false) :=
  ⟨(c4_worker_exit c4_s1 c4_s1' 0).1 (Option.some_get _).symm,
   (c4_worker_exit c4_s2 c4_s2' 0).2.1 (Option.some_get _).symm,
   (c4_worker_exit c4_s3 c4_s3' 0).2.2 (Option.some_get _).symm⟩

/-- C7 (corrected): entering `join` sets `m_join_requested`; `join` returns
only once every spawned worker has terminated, and then clears
`m_join_requested` back to false.  The pool accepts further submissions, but
— contrary to the claim — a subsequent `add_task` spawns no fresh worker
whenever `threads_created ≠ threads_running` (the creation counter is never
reset by `join`), so after any worker was spawned and joined, a subsequent
submit only enqueues. -/
theorem c7_join_protocol (s : PoolState) :
    (∀ c, (step (Op.joinBegin c) s).map PoolState.join_requested = some true) ∧
    (∀ s2, step Op.joinEnd s = some s2 →
      s2.join_requested = false ∧ ∀ w ∈ s.workers, w = WStatus.exited) ∧
    (∀ (pr : Nat) (res : Except Nat Nat), s.threads_created ≠ s.threads_running →
      (addTaskF s pr res).workers = s.workers ∧
      (addTaskF s pr res).threads_created = s.threads_created ∧
      (addTaskF s pr res).tasks.length = s.tasks.length + 1) := by
  refine ⟨fun c => rfl, ?_, ?_⟩
  · intro s2 h
    simp only [step] at h
    by_cases hc : s.workers.all (fun w => decide (w = WStatus.exited)) = true
    · simp only [hc, if_true, Option.some.injEq] at h
      subst h
      refine ⟨rfl, ?_⟩
      intro w hw
      simpa using List.all_eq_true.1 hc w hw
    · simp [hc] at h
  · intro pr res hne
    have hc : spawnCond s = false := by
      simp [spawnCond, hne]
    simp [addTaskF, hc]

/-- C7 counterexample: spawn a worker, let it run the task, then perform a
complete `join(false)` (worker exits, `join_requested` cleared).  A
subsequent `add_task` enqueues its task but spawns nothing: the worker
vector still holds only the single exited worker, so the pool is not
"usable" in the claimed sense. -/
theorem c7_counterexample :
    ((run [Op.addTask 0 (Except.ok 7), Op.fetch 0, Op.finish 0, Op.joinBegin false,
        Op.exitJoin 0, Op.joinEnd, Op.addTask 0 (Except.ok 8)] (init 2 false 1000)).map
      fun s => (s.workers, s.threads_created, s.tasks.length, s.join_requested))
      = some ([WStatus.exited], 1, 1, false) := by
  decide

/-- The state right after a completed `join(false)` on a pool that ran one
task on one worker. -/
def c7_sW : PoolState :=
  (run [Op.addTask 0 (Except.ok 7), Op.fetch 0, Op.finish 0, Op.joinBegin false,
    Op.exitJoin 0, Op.joinEnd] (init 2 false 1000)).get (by rfl)

/-- The state after a further `joinEnd` on `c7_sW` (all workers exited). -/
def c7_sW2 : PoolState := (step Op.joinEnd c7_sW).get (by rfl)

/-- Witness for C7: on the concrete post-join state, `joinBegin` reports the
flag set, `joinEnd` clears it, and a subsequent `add_task` (with
`threads_created = 1 ≠ 0 = threads_running`) spawns nothing while enqueuing
its task. -/
theorem c7_witness :
    ((step (Op.joinBegin false) c7_sW).map PoolState.join_requested = some true) ∧
      c7_sW2.join_requested = false ∧
      ((addTaskF c7_sW 0 (Except.ok 8)).workers = c7_sW.workers ∧
        (addTaskF c7_sW 0 (Except.ok 8)).threads_created = c7_sW.threads_created ∧
        (addTaskF c7_sW 0 (Except.ok 8)).tasks.length = c7_sW.tasks.length + 1) :=
  ⟨(c7_join_protocol c7_sW).1 false,
   ((c7_join_protocol c7_sW).2.1 c7_sW2 (Option.some_get _).symm).1,
   (c7_join_protocol c7_sW).2.2 0 (Except.ok 8) (by decide)⟩

/-- Every transition preserves deadness of a channel id: once a task's id is
out of the queue, held by no worker, and its channel unresolved, it stays
that way — only the execution of a fetched task resolves a channel. -/
theorem addTaskF_parts (s : PoolState) (pr : Nat) (res : Except Nat Nat) :
    (addTaskF s pr res).next_id = s.next_id + 1 ∧
    (addTaskF s pr res).chans = s.chans ∧
    (addTaskF s pr res).tasks = s.tasks ++ [⟨s.next_id, pr, s.next_seq, res⟩] ∧
    ((addTaskF s pr res).workers = s.workers ∨
      (addTaskF s pr res).workers = s.workers ++ [WStatus.idle]) := by
  unfold addTaskF
  by_cases hc : spawnCond s = true
  · rw [if_pos hc]
    exact ⟨rfl, rfl, rfl, Or.inr rfl⟩
  · rw [if_neg hc]
    exact ⟨rfl, rfl, rfl, Or.inl rfl⟩

theorem step_DeadId {op : Op} {s s' : PoolState} {i : Nat} (h : step op s = some s')
    (hd : DeadId i s) : DeadId i s' := by
  obtain ⟨hlt, htasks, hworkers, hchan⟩ := hd
  cases op with
  | addTask pr res =>
    simp only [step, Option.some.injEq] at h
    subst h
    obtain ⟨hni, hch, hts, hwk⟩ := addTaskF_parts s pr res
    refine ⟨by rw [hni]; omega, ?_, ?_, by rw [hch]; exact hchan⟩
    · rw [hts]
      intro t ht
      rcases List.mem_append.1 ht with ht | ht
      · exact htasks t ht
      · rw [List.mem_singleton] at ht
        subst ht
        show s.next_id ≠ i
        omega
    · rcases hwk with hwk | hwk <;> rw [hwk]
      · exact hworkers
      · intro w hw
        rcases List.mem_append.1 hw with hw | hw
        · exact hworkers w hw
        · rw [List.mem_singleton] at hw
          subst hw
          rfl
  | fetch j =>
    simp only [step] at h
    by_cases hp : s.paused = true
    · simp [hp] at h
    · simp only [Bool.not_eq_true] at hp
      simp only [hp, Bool.false_eq_true, if_false] at h
      rcases hw : s.workers.get? j with _ | w <;> simp only [hw] at h
      · exact absurd h (by simp)
      · cases w with
        | idle =>
          rcases hpop : popMax s.tasks with _ | ⟨t, rest⟩ <;> simp only [hpop] at h
          · exact absurd h (by simp)
          · simp only [Option.some.injEq] at h
            subst h
            obtain ⟨htm, hperm, _⟩ := popMax_spec s.tasks t rest hpop
            refine ⟨hlt, ?_, ?_, hchan⟩
            · intro u hu
              exact htasks u (hperm.symm.subset (List.mem_cons_of_mem t hu))
            · intro w hw
              rcases List.mem_or_eq_of_mem_set hw with hw | hw
              · exact hworkers w hw
              · subst hw
                simp only [wHolds]
                exact beq_eq_false_iff_ne.2 (htasks t htm)
        | executing t => exact absurd h (by simp)
        | exited => exact absurd h (by simp)
  | finish j =>
    simp only [step] at h
    rcases hw : s.workers.get? j with _ | w <;> simp only [hw] at h
    · exact absurd h (by simp)
    · cases w with
      | idle => exact absurd h (by simp)
      | executing t =>
        simp only [Option.some.injEq] at h
        subst h
        have htid : t.id ≠ i := by
          have := hworkers _ (List.get?_mem hw)
          simpa [wHolds] using this
        refine ⟨hlt, htasks, ?_, ?_⟩
        · intro w hw'
          rcases List.mem_or_eq_of_mem_set hw' with hw' | hw'
          · exact hworkers w hw'
          · subst hw'
            rfl
        · show Function.update s.chans t.id (resolve t.result) i = ChanState.pending
          rw [Function.update_noteq (Ne.symm htid)]
          exact hchan
      | exited => exact absurd h (by simp)
  | idleLoop j =>
    simp only [step] at h
    by_cases hc : (s.tasks.isEmpty && !s.join_requested) = true
    · simp only [hc, if_true] at h
      rcases hw : s.workers.get? j with _ | w <;> simp only [hw] at h
      · exact absurd h (by simp)
      · cases w with
        | idle =>
          simp only [Option.some.injEq] at h
          subst h
          exact ⟨hlt, htasks, hworkers, hchan⟩
        | executing t => exact absurd h (by simp)
        | exited => exact absurd h (by simp)
    · simp [hc] at h
  | exitCond j =>
    simp only [step] at h
    by_cases hc : s.max_threads < s.threads_created
    · simp only [if_pos hc] at h
      rcases hw : s.workers.get? j with _ | w <;> simp only [hw] at h
      · exact absurd h (by simp)
      · cases w with
        | idle =>
          simp only [Option.some.injEq] at h
          subst h
          refine ⟨hlt, htasks, ?_, hchan⟩
          intro w hw'
          rcases List.mem_or_eq_of_mem_set hw' with hw' | hw'
          · exact hworkers w hw'
          · subst hw'
            rfl
        | executing t => exact absurd h (by simp)
        | exited => exact absurd h (by simp)
    · simp [if_neg hc] at h
  | exitJoin j =>
    simp only [step] at h
    by_cases hc : (s.tasks.isEmpty && s.join_requested) = true
    · simp only [hc, if_true] at h
      rcases hw : s.workers.get? j with _ | w <;> simp only [hw] at h
      · exact absurd h (by simp)
      · cases w with
        | idle =>
          simp only [Option.some.injEq] at h
          subst h
          refine ⟨hlt, htasks, ?_, hchan⟩
          intro w hw'
          rcases List.mem_or_eq_of_mem_set hw' with hw' | hw'
          · exact hworkers w hw'
          · subst hw'
            rfl
        | executing t => exact absurd h (by simp)
        | exited => exact absurd h (by simp)
    · simp [hc] at h
  | pauseOp =>
    simp only [step, Option.some.injEq] at h
    subst h
    exact ⟨hlt, htasks, hworkers, hchan⟩
  | unpauseOp =>
    simp only [step, Option.some.injEq] at h
    subst h
    exact ⟨hlt, htasks, hworkers, hchan⟩
  | clearOp =>
    simp only [step, Option.some.injEq] at h
    subst h
    exact ⟨hlt, by simp [clearF], hworkers, hchan⟩
  | joinBegin c =>
    simp only [step, Option.some.injEq] at h
    subst h
    refine ⟨hlt, ?_, hworkers, hchan⟩
    by_cases hc : c = true <;> simp [hc]
    · intro t ht
      exact htasks t ht
  | joinEnd =>
    simp only [step] at h
    split at h
    · simp only [Option.some.injEq] at h
      subst h
      exact ⟨hlt, htasks, hworkers, hchan⟩
    · exact absurd h (by simp)
  | setMax n =>
    simp only [step, Option.some.injEq] at h
    subst h
    exact ⟨hlt, htasks, hworkers, hchan⟩

/-- Running any sequence of operations preserves channel deadness. -/
theorem run_DeadId : ∀ (ops : List Op) (s s' : PoolState) {i : Nat},
    run ops s = some s' → DeadId i s → DeadId i s' := by
  intro ops
  induction ops with
  | nil =>
    intro s s' i h hd
    simp only [run, Option.some.injEq] at h
    subst h
    exact hd
  | cons op ops ih =>
    intro s s' i h hd
    simp only [run] at h
    split at h
    · rename_i s1 hs1
      exact ih s1 s' h (step_DeadId hs1 hd)
    · exact absurd h (by simp)

/-- C5 (confirmed): a task still in the queue (never popped, held by no
worker, channel unresolved) that `clear()` evicts has a result channel that
stays `pending` through every subsequent sequence of pool operations: it
never yields a value and never yields a failure. -/
theorem c5_cleared_task_never_resolves (s : PoolState) (t : Task) (ops : List Op)
    (s2 : PoolState)
    (_hmem : t ∈ s.tasks)
    (hid : t.id < s.next_id)
    (hexec : ∀ w ∈ s.workers, wHolds t.id w = false)
    (hpend : s.chans t.id = ChanState.pending)
    (hrun : run ops (clearF s) = some s2) :
    s2.chans t.id = ChanState.pending := by
  have hdead : DeadId t.id (clearF s) := ⟨hid, by simp [clearF], hexec, hpend⟩
  exact (run_DeadId ops _ s2 hrun hdead).2.2.2

/-- The pool just after submitting one priority-5 task (one idle worker,
the task queued with channel id 0). -/
def c5_s : PoolState := addTaskF (init 2 false 1000) 5 (Except.ok 1)

/-- Operations run after the `clear()`: submit another task and let the
worker run it to completion. -/
def c5_ops : List Op := [Op.addTask 0 (Except.ok 9), Op.fetch 0, Op.finish 0]

/-- The state reached by `c5_ops` after clearing `c5_s`. -/
def c5_s2 : PoolState := (run c5_ops (clearF c5_s)).get (by rfl)

/-- Witness for C5: the cleared task's channel (id 0) is still pending after
the pool went on to run a different task to completion. -/
theorem c5_witness : c5_s2.chans 0 = ChanState.pending :=
  c5_cleared_task_never_resolves c5_s ⟨0, 5, 0, Except.ok 1⟩ c5_ops c5_s2
    (by decide) (by decide) (by decide) (by rfl) (Option.some_get _).symm

end Threadpool
